import Mathlib

/-!
Verification of the ZION v2.9 mining session engine
(`src/desktop-agent/resources/zion_native_miner_v2_9.py`).

The Lean definitions below are shallow embeddings of the Python source:
the difficulty→target conversion and share-acceptance rules of
`_update_job_from_stratum` / `_cpu_worker`, the nonce allocator
`_alloc_nonces`, the job-state installation logic, and the
`StratumClient` message handling (`_handle_message`, `get_job`,
`_listen_loop`, `submit_share`).  Python `int` values are modelled as
`Nat`/`Int`; byte strings as `List Nat` with bytes `< 256`; mutable
object state as explicit state records.
-/

namespace ZionMiner

/-- The `Algorithm` enum (source lines 91–95). -/
inductive Algorithm
  | cosmic_harmony
  | randomx
  | yescrypt
deriving DecidableEq

/-- `int.from_bytes(bs, 'little')`: little-endian interpretation of a byte list. -/
def leBytesToNat : List Nat → Nat
  | [] => 0
  | b :: rest => b + 256 * leBytesToNat rest

/-- `int.from_bytes(bs, 'big')`: big-endian interpretation of a byte list. -/
def beBytesToNat (bs : List Nat) : Nat :=
  bs.foldl (fun acc b => acc * 256 + b) 0

/-- `0xFFFFFFFFFFFFFFFF` (source line 1721). -/
def U64_MAX : Nat := 0xFFFFFFFFFFFFFFFF

/-- The 64-hex-digit maximum 256-bit target (source line 1727). -/
def U256_MAX : Nat :=
  0xFFFFFFFFFFFFFFFFFFFFFFFFFFFFFFFFFFFFFFFFFFFFFFFFFFFFFFFFFFFFFFFF

/-- The three target fields computed per job (source lines 1684–1686). -/
structure JobTargets where
  target_64 : Option Nat
  target_256 : Option Nat
  target_cosmic32 : Option Nat
deriving DecidableEq

/-- Difficulty→target conversion from `_update_job_from_stratum`
(source lines 1714–1739): `difficulty = max(1, pool_difficulty)`;
RandomX gets `target_64 = 0xFFFF..FF // difficulty`; the 256-bit
algorithms get `target_256 = u256_max // difficulty`, and Cosmic
Harmony additionally `target_cosmic32 = target_256 >> 224`. -/
def computeTargets (algo : Algorithm) (pool_difficulty : Int) : JobTargets :=
  let difficulty : Nat := (max 1 pool_difficulty).toNat
  if algo = Algorithm.randomx then
    { target_64 := some (U64_MAX / difficulty)
      target_256 := none
      target_cosmic32 := none }
  else
    let target_256 := U256_MAX / difficulty
    { target_64 := none
      target_256 := some target_256
      target_cosmic32 :=
        if algo = Algorithm.cosmic_harmony then some (target_256 >>> 224)
        else none }

/-- Share acceptance check from `_cpu_worker` (source lines 1848–1873):
with a 64-bit target, compare the first 8 digest bytes little-endian
(`<=`); with a 256-bit target, Cosmic Harmony compares the first 4
digest bytes little-endian against the truncated target (`<=`) and the
other algorithms compare the full digest big-endian (`<`, strict). -/
def shareMeets (algo : Algorithm) (t : JobTargets) (digest : List Nat) : Bool :=
  match t.target_64 with
  | some target_64 => decide (leBytesToNat (digest.take 8) ≤ target_64)
  | none =>
    match t.target_256 with
    | none => false
    | some target_256 =>
      if algo = Algorithm.cosmic_harmony then
        match t.target_cosmic32 with
        | some target_cosmic32 =>
            decide (leBytesToNat (digest.take 4) ≤ target_cosmic32)
        | none => decide (beBytesToNat digest < target_256)
      else decide (beBytesToNat digest < target_256)

/-- A 32-byte digest whose first 8 bytes little-endian are `0x7FFFFFFFFFFFFFFF`. -/
def digest7FFF : List Nat :=
  [0xFF, 0xFF, 0xFF, 0xFF, 0xFF, 0xFF, 0xFF, 0x7F] ++ List.replicate 24 0

/-- A 32-byte digest whose first 8 bytes little-endian are `0x8000000000000000`. -/
def digest8000 : List Nat :=
  [0x00, 0x00, 0x00, 0x00, 0x00, 0x00, 0x00, 0x80] ++ List.replicate 24 0

theorem max_one_toNat {d : Int} (hd : 1 ≤ d) : (max 1 d).toNat = d.toNat := by
  rw [max_eq_right hd]

theorem leBytesToNat_lt_pow {l : List Nat} (h : ∀ b ∈ l, b < 256) :
    leBytesToNat l < 256 ^ l.length := by
  induction l with
  | nil => simp [leBytesToNat]
  | cons b rest ih =>
    have hb : b < 256 := h b (List.mem_cons_self b rest)
    have hrest : leBytesToNat rest < 256 ^ rest.length :=
      ih (fun x hx => h x (List.mem_cons_of_mem b hx))
    simp only [leBytesToNat, List.length_cons, pow_succ]
    calc b + 256 * leBytesToNat rest
        ≤ 255 + 256 * leBytesToNat rest := by omega
      _ < 256 * (leBytesToNat rest + 1) := by omega
      _ ≤ 256 * (256 ^ rest.length) := by
          exact Nat.mul_le_mul_left 256 hrest
      _ = 256 ^ rest.length * 256 := by ring

/-- C1: for pool difficulty ≥ 1 on RandomX (the 64-bit algorithm), the
target equals `⌊u64::MAX / difficulty⌋` and a digest is accepted iff its
first 8 bytes little-endian are `≤` that target; for difficulty 2 the
target is `0x7FFFFFFFFFFFFFFF`, a digest with low64 `0x7FFFFFFFFFFFFFFF`
is accepted and one with low64 `0x8000000000000000` is rejected. -/
theorem randomx_target64_spec (d : Int) (digest : List Nat) (hd : 1 ≤ d) :
    (computeTargets Algorithm.randomx d).target_64 = some (U64_MAX / d.toNat) ∧
    (shareMeets Algorithm.randomx (computeTargets Algorithm.randomx d) digest = true ↔
      leBytesToNat (digest.take 8) ≤ U64_MAX / d.toNat) ∧
    (computeTargets Algorithm.randomx 2).target_64 = some 0x7FFFFFFFFFFFFFFF ∧
    shareMeets Algorithm.randomx (computeTargets Algorithm.randomx 2) digest7FFF = true ∧
    shareMeets Algorithm.randomx (computeTargets Algorithm.randomx 2) digest8000 = false := by
  refine ⟨?_, ?_, by decide, by decide, by decide⟩
  · simp [computeTargets, max_one_toNat hd]
  · simp [computeTargets, shareMeets, max_one_toNat hd]

/-- Witness for `randomx_target64_spec` at difficulty 2 and the
boundary digest. -/
theorem randomx_target64_spec_witness :
    (1 : Int) ≤ 2 ∧
    ((computeTargets Algorithm.randomx 2).target_64 = some (U64_MAX / (2 : Int).toNat) ∧
    (shareMeets Algorithm.randomx (computeTargets Algorithm.randomx 2) digest7FFF = true ↔
      leBytesToNat (digest7FFF.take 8) ≤ U64_MAX / (2 : Int).toNat) ∧
    (computeTargets Algorithm.randomx 2).target_64 = some 0x7FFFFFFFFFFFFFFF ∧
    shareMeets Algorithm.randomx (computeTargets Algorithm.randomx 2) digest7FFF = true ∧
    shareMeets Algorithm.randomx (computeTargets Algorithm.randomx 2) digest8000 = false) :=
  ⟨by decide, randomx_target64_spec 2 digest7FFF (by decide)⟩

/-- C2: for pool difficulty ≥ 1 on Cosmic Harmony, the truncated target
equals `⌊u256::MAX / difficulty⌋ >> 224` and a digest is accepted iff
its first 4 bytes little-endian are `≤` that truncated target; for
difficulty 1 the truncated target is `0xFFFFFFFF` and every digest
(all bytes < 256) is accepted. -/
theorem cosmic_truncated_target_spec (d : Int) (digest : List Nat) (hd : 1 ≤ d)
    (hbytes : ∀ b ∈ digest, b < 256) :
    (computeTargets Algorithm.cosmic_harmony d).target_cosmic32 =
      some ((U256_MAX / d.toNat) >>> 224) ∧
    (shareMeets Algorithm.cosmic_harmony (computeTargets Algorithm.cosmic_harmony d) digest
        = true ↔
      leBytesToNat (digest.take 4) ≤ (U256_MAX / d.toNat) >>> 224) ∧
    (computeTargets Algorithm.cosmic_harmony 1).target_cosmic32 = some 0xFFFFFFFF ∧
    shareMeets Algorithm.cosmic_harmony (computeTargets Algorithm.cosmic_harmony 1) digest
        = true := by
  refine ⟨?_, ?_, by decide, ?_⟩
  · simp [computeTargets, max_one_toNat hd]
  · simp [computeTargets, shareMeets, max_one_toNat hd]
  · have htake : ∀ b ∈ digest.take 4, b < 256 :=
      fun b hb => hbytes b (List.mem_of_mem_take hb)
    have hlt : leBytesToNat (digest.take 4) < 256 ^ (digest.take 4).length :=
      leBytesToNat_lt_pow htake
    have hlen : (digest.take 4).length ≤ 4 := List.length_take_le 4 digest
    have hpow : (256 : Nat) ^ (digest.take 4).length ≤ 256 ^ 4 :=
      Nat.pow_le_pow_right (by norm_num) hlen
    have hbound : leBytesToNat (digest.take 4) ≤ 0xFFFFFFFF := by
      have : leBytesToNat (digest.take 4) < 256 ^ 4 := lt_of_lt_of_le hlt hpow
      norm_num at this ⊢
      omega
    have hval : (U256_MAX / (max 1 (1 : Int)).toNat) >>> 224 = 0xFFFFFFFF := by decide
    simpa [computeTargets, shareMeets, hval] using hbound

/-- Witness for `cosmic_truncated_target_spec` at difficulty 1. -/
theorem cosmic_truncated_target_spec_witness :
    ((1 : Int) ≤ 1 ∧ (∀ b ∈ digest8000, b < 256)) ∧
    ((computeTargets Algorithm.cosmic_harmony 1).target_cosmic32 =
      some ((U256_MAX / (1 : Int).toNat) >>> 224) ∧
    (shareMeets Algorithm.cosmic_harmony (computeTargets Algorithm.cosmic_harmony 1) digest8000
        = true ↔
      leBytesToNat (digest8000.take 4) ≤ (U256_MAX / (1 : Int).toNat) >>> 224) ∧
    (computeTargets Algorithm.cosmic_harmony 1).target_cosmic32 = some 0xFFFFFFFF ∧
    shareMeets Algorithm.cosmic_harmony (computeTargets Algorithm.cosmic_harmony 1) digest8000
        = true) :=
  ⟨⟨by decide, by decide⟩,
    cosmic_truncated_target_spec 1 digest8000 (by decide) (by decide)⟩

/-- C3: for pool difficulty ≥ 1 on Yescrypt (256-bit, not Cosmic
Harmony), the target equals `⌊u256::MAX / difficulty⌋` and a digest is
accepted iff the full digest interpreted big-endian is strictly less
than that target. -/
theorem yescrypt_target256_spec (d : Int) (digest : List Nat) (hd : 1 ≤ d) :
    (computeTargets Algorithm.yescrypt d).target_256 = some (U256_MAX / d.toNat) ∧
    (computeTargets Algorithm.yescrypt d).target_cosmic32 = none ∧
    (shareMeets Algorithm.yescrypt (computeTargets Algorithm.yescrypt d) digest = true ↔
      beBytesToNat digest < U256_MAX / d.toNat) := by
  refine ⟨?_, ?_, ?_⟩
  · simp [computeTargets, max_one_toNat hd]
  · simp [computeTargets]
  · simp [computeTargets, shareMeets, max_one_toNat hd]

/-- Witness for `yescrypt_target256_spec` at difficulty 2 with an
all-zero digest. -/
theorem yescrypt_target256_spec_witness :
    (1 : Int) ≤ 2 ∧
    ((computeTargets Algorithm.yescrypt 2).target_256 = some (U256_MAX / (2 : Int).toNat) ∧
    (computeTargets Algorithm.yescrypt 2).target_cosmic32 = none ∧
    (shareMeets Algorithm.yescrypt (computeTargets Algorithm.yescrypt 2)
        (List.replicate 32 0) = true ↔
      beBytesToNat (List.replicate 32 0) < U256_MAX / (2 : Int).toNat)) :=
  ⟨by decide, yescrypt_target256_spec 2 (List.replicate 32 0) (by decide)⟩

/-! ### Nonce allocator (`_alloc_nonces`, source lines 1694–1699) -/

/-- `_alloc_nonces(count)`: under the nonce lock, return the current
cursor as the range start and advance the cursor by `count`.  Result is
`(start, new_cursor)`. -/
def alloc_nonces (cursor count : Nat) : Nat × Nat :=
  (cursor, cursor + count)

/-- Run a sequence of `_alloc_nonces` calls from a given cursor (the
mutex serializes concurrent callers into such a sequence), collecting
the returned `(start, count)` ranges in issuance order. -/
def runAllocs (cursor : Nat) : List Nat → List (Nat × Nat)
  | [] => []
  | c :: rest =>
    let r := alloc_nonces cursor c
    (r.1, c) :: runAllocs r.2 rest

/-- Membership of a nonce in the half-open range `[start, start + count)`. -/
def inRange (r : Nat × Nat) (n : Nat) : Prop :=
  r.1 ≤ n ∧ n < r.1 + r.2

instance (r : Nat × Nat) (n : Nat) : Decidable (inRange r n) :=
  inferInstanceAs (Decidable (And _ _))

theorem runAllocs_getD (cs : List Nat) : ∀ (cursor i : Nat), i < cs.length →
    (runAllocs cursor cs).getD i (0, 0) = (cursor + (cs.take i).sum, cs.getD i 0) := by
  induction cs with
  | nil => intro cursor i h; simp at h
  | cons c rest ih =>
    intro cursor i h
    cases i with
    | zero => simp [runAllocs, alloc_nonces]
    | succ i =>
      simp only [runAllocs, alloc_nonces, List.getD_cons_succ, List.take_succ_cons,
        List.sum_cons]
      rw [ih (cursor + c) i (by simpa using h)]
      simp [Nat.add_assoc]

theorem sum_take_le_sum_take (l : List Nat) {i j : Nat} (h : i ≤ j) :
    (l.take i).sum ≤ (l.take j).sum := by
  have hj : j = i + (j - i) := by omega
  rw [hj, List.take_add, List.sum_append]
  exact Nat.le_add_right _ _

theorem sum_take_succ_getD : ∀ (l : List Nat) (i : Nat), i < l.length →
    (l.take (i + 1)).sum = (l.take i).sum + l.getD i 0
  | [], i, h => by simp at h
  | a :: l, 0, _ => by simp
  | a :: l, i + 1, h => by
    simp only [List.take_succ_cons, List.sum_cons, List.getD_cons_succ]
    rw [sum_take_succ_getD l i (by simpa using h)]
    omega

theorem mem_runAllocs_iff (cs : List Nat) : ∀ (cursor n : Nat),
    (∃ r ∈ runAllocs cursor cs, inRange r n) ↔ cursor ≤ n ∧ n < cursor + cs.sum := by
  induction cs with
  | nil =>
    intro cursor n
    simp [runAllocs]
  | cons c rest ih =>
    intro cursor n
    simp only [runAllocs, alloc_nonces, List.sum_cons]
    constructor
    · rintro ⟨r, hr, hin⟩
      rcases List.mem_cons.mp hr with h | h
      · subst h
        obtain ⟨h1, h2⟩ := hin
        simp only at h1 h2
        omega
      · have := (ih (cursor + c) n).mp ⟨r, h, hin⟩
        omega
    · intro h
      by_cases hc : n < cursor + c
      · exact ⟨(cursor, c), List.mem_cons_self _ _, ⟨h.1, hc⟩⟩
      · obtain ⟨r, hr, hin⟩ := (ih (cursor + c) n).mpr (by omega)
        exact ⟨r, List.mem_cons_of_mem _ hr, hin⟩

/-- C4: for any sequence of allocation sizes starting from a freshly
reset cursor (0), the i-th returned range starts at the cursor value
before call i (the sum of the first i counts) and has the requested
size; distinct ranges are disjoint; and the ranges' union is exactly
the contiguous prefix `[0, Σ cᵢ)` of the nonce space. -/
theorem alloc_nonces_disjoint_contiguous (counts : List Nat) :
    (∀ i, i < counts.length →
      (runAllocs 0 counts).getD i (0, 0) = ((counts.take i).sum, counts.getD i 0)) ∧
    (∀ i j n, i ≠ j → i < counts.length → j < counts.length →
      ¬(inRange ((runAllocs 0 counts).getD i (0, 0)) n ∧
        inRange ((runAllocs 0 counts).getD j (0, 0)) n)) ∧
    (∀ n, (∃ r ∈ runAllocs 0 counts, inRange r n) ↔ n < counts.sum) := by
  have key : ∀ i j n, i < j → j < counts.length →
      inRange ((runAllocs 0 counts).getD i (0, 0)) n →
      inRange ((runAllocs 0 counts).getD j (0, 0)) n → False := by
    intro i j n hij hj hi hjr
    have hi' : i < counts.length := lt_trans hij hj
    rw [runAllocs_getD counts 0 i hi'] at hi
    rw [runAllocs_getD counts 0 j hj] at hjr
    obtain ⟨ha1, ha2⟩ := hi
    obtain ⟨hb1, hb2⟩ := hjr
    simp only [Nat.zero_add] at ha1 ha2 hb1 hb2
    have h1 : (counts.take (i + 1)).sum = (counts.take i).sum + counts.getD i 0 :=
      sum_take_succ_getD counts i hi'
    have h2 : (counts.take (i + 1)).sum ≤ (counts.take j).sum :=
      sum_take_le_sum_take counts (by omega)
    omega
  refine ⟨?_, ?_, ?_⟩
  · intro i hi
    have := runAllocs_getD counts 0 i hi
    simpa using this
  · rintro i j n hne hi hj ⟨h1, h2⟩
    rcases Nat.lt_or_ge i j with h | h
    · exact key i j n h hj h1 h2
    · have hji : j < i := by omega
      exact key j i n hji hi h2 h1
  · intro n
    have := mem_runAllocs_iff counts 0 n
    simpa using this

/-- Witness for `alloc_nonces_disjoint_contiguous` on `counts = [3, 5]`:
nonce 2 cannot lie in both the first and the second issued range. -/
theorem alloc_nonces_disjoint_contiguous_witness :
    ((0 : Nat) ≠ 1 ∧ 0 < ([3, 5] : List Nat).length ∧ 1 < ([3, 5] : List Nat).length) ∧
    ¬(inRange ((runAllocs 0 [3, 5]).getD 0 (0, 0)) 2 ∧
      inRange ((runAllocs 0 [3, 5]).getD 1 (0, 0)) 2) :=
  ⟨⟨by decide, by decide, by decide⟩,
    (alloc_nonces_disjoint_contiguous [3, 5]).2.1 0 1 2 (by decide) (by decide) (by decide)⟩

/-! ### Job installation (`_update_job_from_stratum`, source lines 1701–1763) -/

/-- Value of one hex digit character, `none` for a non-hex character. -/
def hexDigitVal (c : Char) : Option Nat :=
  if '0' ≤ c ∧ c ≤ '9' then some (c.toNat - 48)
  else if 'a' ≤ c ∧ c ≤ 'f' then some (c.toNat - 87)
  else if 'A' ≤ c ∧ c ≤ 'F' then some (c.toNat - 55)
  else none

/-- `bytes.fromhex`: decode an even-length hex string to bytes, failing
on odd length or a non-hex character.  (CPython additionally skips
ASCII spaces between byte pairs; no claim depends on that and job blobs
carry none.) -/
def hexDecode : List Char → Option (List Nat)
  | [] => some []
  | [_] => none
  | c1 :: c2 :: rest =>
    match hexDigitVal c1, hexDigitVal c2, hexDecode rest with
    | some hi, some lo, some bs => some ((16 * hi + lo) :: bs)
    | _, _, _ => none

/-- A pool job as consumed by `_update_job_from_stratum` (the typed
view of the notify dict fields it reads: `job_id`, `blob`,
`difficulty`, `height`). -/
structure PoolJob where
  job_id : String
  blob : String
  difficulty : Option Int
  height : Option Int
deriving DecidableEq

/-- The shared per-session job state (source lines 1678–1689) together
with the nonce cursor, which job installation resets under the same
lock (source lines 1752–1753). -/
structure MinerJobState where
  job_id : Option String
  blob_hex : Option String
  blob_bytes : Option (List Nat)
  difficulty : Option Nat
  height : Option Int
  target_64 : Option Nat
  target_256 : Option Nat
  target_cosmic32 : Option Nat
  version : Nat
  nonce_cursor : Nat
deriving DecidableEq

/-- The fresh job state at session start (source lines 1678–1689). -/
def initialJobState : MinerJobState :=
  { job_id := none, blob_hex := none, blob_bytes := none, difficulty := none
    height := none, target_64 := none, target_256 := none
    target_cosmic32 := none, version := 0, nonce_cursor := 0 }

/-- `int(job.get("difficulty") or 1)` (source line 1705): a missing or
zero difficulty becomes 1. -/
def poolDifficultyOf (j : PoolJob) : Int :=
  match j.difficulty with
  | none => 1
  | some v => if v = 0 then 1 else v

/-- Whether `_update_job_from_stratum` actually installs the job: job
id and blob non-empty, blob decodes as hex, and the job id differs from
the currently installed one (source lines 1707–1712 and 1742). -/
def installs (s : MinerJobState) (j : PoolJob) : Bool :=
  decide (j.job_id ≠ "" ∧ j.blob ≠ "" ∧ (hexDecode j.blob.data).isSome = true ∧
    s.job_id ≠ some j.job_id)

/-- `_update_job_from_stratum` (source lines 1701–1753): validate the
job, compute the algorithm-specific targets from the pool difficulty,
and — only when the job id changed — replace every job-state field,
bump the version by one and reset the nonce cursor to 0. -/
def update_job_from_stratum (algo : Algorithm) (s : MinerJobState) (j : PoolJob) :
    MinerJobState :=
  if j.job_id = "" ∨ j.blob = "" then s
  else
    match hexDecode j.blob.data with
    | none => s
    | some blob_bytes =>
      let pool_difficulty := poolDifficultyOf j
      let difficulty : Nat := (max 1 pool_difficulty).toNat
      let t := computeTargets algo pool_difficulty
      if s.job_id = some j.job_id then s
      else
        { job_id := some j.job_id
          blob_hex := some j.blob
          blob_bytes := some blob_bytes
          difficulty := some difficulty
          height := j.height
          target_64 := t.target_64
          target_256 := t.target_256
          target_cosmic32 := t.target_cosmic32
          version := s.version + 1
          nonce_cursor := 0 }

/-- Folding a sequence of job updates over the session state. -/
def applyJobs (algo : Algorithm) (s : MinerJobState) (js : List PoolJob) :
    MinerJobState :=
  js.foldl (update_job_from_stratum algo) s

theorem update_version_le (algo : Algorithm) (s : MinerJobState) (j : PoolJob) :
    s.version ≤ (update_job_from_stratum algo s j).version := by
  rcases hdec : hexDecode j.blob.data with _ | bs <;>
    by_cases hjid : j.job_id = "" <;>
    by_cases hblob : j.blob = "" <;>
    by_cases hsame : s.job_id = some j.job_id <;>
    simp_all [update_job_from_stratum]

theorem applyJobs_version_le (algo : Algorithm) (js : List PoolJob) :
    ∀ s : MinerJobState, s.version ≤ (applyJobs algo s js).version := by
  induction js with
  | nil => intro s; simp [applyJobs]
  | cons j rest ih =>
    intro s
    have h1 := update_version_le algo s j
    have h2 := ih (update_job_from_stratum algo s j)
    simp only [applyJobs, List.foldl_cons] at h2 ⊢
    omega

/-- C5: a job update never decreases the version; every actual
installation of a new job bumps the version by exactly one and resets
the nonce cursor to 0; a non-installing update leaves the state
unchanged; and over any sequence of updates the version is monotone —
hence strictly increasing across successive installs in a session. -/
theorem install_version_monotone_cursor_reset (algo : Algorithm)
    (s : MinerJobState) (j : PoolJob) :
    s.version ≤ (update_job_from_stratum algo s j).version ∧
    (installs s j = true →
      (update_job_from_stratum algo s j).version = s.version + 1 ∧
      (update_job_from_stratum algo s j).nonce_cursor = 0) ∧
    (installs s j = false → update_job_from_stratum algo s j = s) ∧
    (∀ js : List PoolJob, s.version ≤ (applyJobs algo s js).version) := by
  refine ⟨update_version_le algo s j, ?_, ?_, fun js => applyJobs_version_le algo js s⟩ <;>
    · rcases hdec : hexDecode j.blob.data with _ | bs <;>
        by_cases hjid : j.job_id = "" <;>
        by_cases hblob : j.blob = "" <;>
        by_cases hsame : s.job_id = some j.job_id <;>
        simp_all [update_job_from_stratum, installs]

/-- A sample valid pool job used by witnesses. -/
def sampleJob : PoolJob :=
  { job_id := "job-1", blob := "00ff", difficulty := some 2, height := some 100 }

/-- Witness for `install_version_monotone_cursor_reset`: installing
`sampleJob` into the fresh session state bumps the version to 1 and
resets the cursor. -/
theorem install_version_monotone_cursor_reset_witness :
    installs initialJobState sampleJob = true ∧
    ((update_job_from_stratum Algorithm.randomx initialJobState sampleJob).version =
        initialJobState.version + 1 ∧
      (update_job_from_stratum Algorithm.randomx initialJobState sampleJob).nonce_cursor = 0) :=
  ⟨by decide,
    (install_version_monotone_cursor_reset Algorithm.randomx initialJobState sampleJob).2.1
      (by decide)⟩

/-! ### StratumClient message handling (source lines 176–564) -/

/-- A JSON scalar carried in Stratum message params. -/
inductive SVal
  | s (v : String)
  | n (v : Int)
  | b (v : Bool)
deriving DecidableEq

/-- Python truthiness of a scalar (used by `if job.get('clean_jobs'):`,
source line 491). -/
def truthy : SVal → Bool
  | .s v => decide (v ≠ "")
  | .n v => decide (v ≠ 0)
  | .b v => v

/-- The job dict built by `mining.notify` handling (source lines
476–484): raw param values, untyped as in the Python dict. -/
structure NotifyJob where
  job_id : SVal
  blob : SVal
  seed_hash : SVal
  next_seed_hash : SVal
  height : SVal
  difficulty : SVal
  clean_jobs : SVal
deriving DecidableEq

/-- Mutable state of a `StratumClient` (constructor, source lines
176–210).  The pending-submit id set is modelled as a list; the
handshake wait-event table (a cross-thread rendezvous) is omitted — no
claim concerns it. -/
structure ClientState where
  connected : Bool
  last_disconnect_reason : Option String
  current_job : Option NotifyJob
  job_queue : List NotifyJob
  request_id : Nat
  pending_submit_ids : List Nat
  shares_sent : Nat
  shares_accepted : Nat
  shares_rejected : Nat
  worker_id : String
deriving DecidableEq

/-- Client state right after construction (source lines 176–210). -/
def initialClientState (worker_id : String) : ClientState :=
  { connected := false, last_disconnect_reason := none, current_job := none
    job_queue := [], request_id := 1, pending_submit_ids := []
    shares_sent := 0, shares_accepted := 0, shares_rejected := 0
    worker_id := worker_id }

/-- Array-format `mining.notify` parsing (source lines 474–484): needs
at least 2 positional params; missing tail fields get defaults
(`seed_hash`/`next_seed_hash` empty string, `height` 0, `difficulty` 1,
`clean_jobs` true). -/
def parseNotifyArray (params : List SVal) : Option NotifyJob :=
  if 2 ≤ params.length then
    some
      { job_id := params.getD 0 (.s "")
        blob := params.getD 1 (.s "")
        seed_hash := params.getD 2 (.s "")
        next_seed_hash := params.getD 3 (.s "")
        height := params.getD 4 (.n 0)
        difficulty := params.getD 5 (.n 1)
        clean_jobs := params.getD 6 (.b true) }
  else none

/-- Install a parsed notify job (source lines 489–500): if the job's
`clean_jobs` is truthy, drain the queue; then set it as current job and
enqueue it. -/
def installNotify (st : ClientState) (job : NotifyJob) : ClientState :=
  let q := if truthy job.clean_jobs then [] else st.job_queue
  { st with current_job := some job, job_queue := q ++ [job] }

/-- The `result` field of a JSON-RPC response, as inspected by the
submit-response classifier (source lines 542–547). -/
inductive RVal
  | dict (status : Option String)
  | boolTrue
  | boolFalse
  | absent
deriving DecidableEq

/-- `result.status == 'OK'` for a dict result, or `result is True`
(source lines 542–547). -/
def acceptedResult : RVal → Bool
  | .dict status => decide (status = some "OK")
  | .boolTrue => true
  | _ => false

/-- Submit-response accounting (source lines 510–557): a response whose
id is a pending submit removes the id and counts the share accepted or
rejected; other responses leave these counters alone. -/
def handleResponse (st : ClientState) (req_id : Option Nat) (hasError : Bool)
    (result : RVal) : ClientState :=
  match req_id with
  | none => st
  | some rid =>
    if rid ∈ st.pending_submit_ids then
      let st1 := { st with pending_submit_ids := st.pending_submit_ids.erase rid }
      if hasError then { st1 with shares_rejected := st1.shares_rejected + 1 }
      else if acceptedResult result then
        { st1 with shares_accepted := st1.shares_accepted + 1 }
      else { st1 with shares_rejected := st1.shares_rejected + 1 }
    else st

/-- A pool message after the JSON layer, tagged by its `method` as
`_handle_message` dispatches it (source lines 442–564).  `notifyArr` is
a positional-array notify (params[0] not a dict); `notifyDict` the
legacy dict shape. -/
inductive StratumMsg
  | notifyArr (params : List SVal)
  | notifyDict (job : NotifyJob)
  | setDifficulty (params : List SVal)
  | blockFound
  | response (req_id : Option Nat) (hasError : Bool) (result : RVal)
deriving DecidableEq

/-- `_handle_message` (source lines 442–564).  `block_found` and
`mining.set_difficulty` are informational only; an empty or
unparseable notify params is dropped. -/
def handle_message (st : ClientState) (m : StratumMsg) : ClientState :=
  match m with
  | .blockFound => st
  | .notifyArr params =>
    if params.isEmpty then st
    else
      match parseNotifyArray params with
      | none => st
      | some job => installNotify st job
  | .notifyDict job => installNotify st job
  | .setDifficulty _ => st
  | .response req_id hasError result => handleResponse st req_id hasError result

/-- `get_job` (source lines 361–380): drain the queue keeping only the
latest job; if one was found it becomes the current job; return the
current job. -/
def get_job (st : ClientState) : Option NotifyJob × ClientState :=
  match st.job_queue.getLast? with
  | some j => (some j, { st with current_job := some j, job_queue := [] })
  | none => (st.current_job, { st with job_queue := [] })

/-- Result of the (k+1)-th consecutive `get_job` call. -/
def get_job_iter (st : ClientState) : Nat → Option NotifyJob
  | 0 => (get_job st).1
  | k + 1 => get_job_iter (get_job st).2 k

theorem get_job_iter_stable (j : NotifyJob) :
    ∀ (st : ClientState), st.job_queue = [] → st.current_job = some j →
    ∀ k, get_job_iter st k = some j := by
  intro st hq hc k
  induction k generalizing st with
  | zero => simp [get_job_iter, get_job, hq, hc]
  | succ k ih =>
    simp only [get_job_iter, get_job, hq, List.getLast?_nil]
    exact ih _ rfl hc

/-- C6: after the listener handles `notify(J1, clean_jobs=false)` then
`notify(J2, clean_jobs=true)` with no job consumed in between, every
subsequent `get_job` yields J2 — and never J1 when the jobs differ:
`clean_jobs` discards the queued J1 and the drain keeps the latest. -/
theorem latest_job_wins (st : ClientState) (J1 J2 : NotifyJob) (k : Nat)
    (h1 : truthy J1.clean_jobs = false) (h2 : truthy J2.clean_jobs = true) :
    get_job_iter (handle_message (handle_message st (.notifyDict J1)) (.notifyDict J2)) k
      = some J2 ∧
    (J1 ≠ J2 →
      get_job_iter (handle_message (handle_message st (.notifyDict J1)) (.notifyDict J2)) k
        ≠ some J1) := by
  have hstate :
      handle_message (handle_message st (.notifyDict J1)) (.notifyDict J2) =
        { st with current_job := some J2, job_queue := [J2] } := by
    simp [handle_message, installNotify, h1, h2]
  have hsucc : ∀ k, get_job_iter { st with current_job := some J2, job_queue := [J2] } k
      = some J2 := by
    intro k
    cases k with
    | zero => simp [get_job_iter, get_job]
    | succ k =>
      have hnext : (get_job { st with current_job := some J2, job_queue := [J2] }).2 =
          { st with current_job := some J2, job_queue := [] } := by
        simp [get_job]
      simp only [get_job_iter]
      rw [hnext]
      exact get_job_iter_stable J2 _ rfl rfl k
  constructor
  · rw [hstate]
    exact hsucc k
  · intro hne habs
    rw [hstate, hsucc k] at habs
    exact hne (Option.some.inj habs).symm

/-- Two distinct sample jobs used by witnesses. -/
def sampleNotify1 : NotifyJob :=
  { job_id := .s "j1", blob := .s "00ff", seed_hash := .s "", next_seed_hash := .s ""
    height := .n 10, difficulty := .n 2, clean_jobs := .b false }

/-- Second sample job, with `clean_jobs` set. -/
def sampleNotify2 : NotifyJob :=
  { job_id := .s "j2", blob := .s "ff00", seed_hash := .s "", next_seed_hash := .s ""
    height := .n 11, difficulty := .n 2, clean_jobs := .b true }

/-- Witness for `latest_job_wins` at a fresh client and the two sample
jobs, second `get_job` call. -/
theorem latest_job_wins_witness :
    (truthy sampleNotify1.clean_jobs = false ∧ truthy sampleNotify2.clean_jobs = true) ∧
    (get_job_iter
        (handle_message (handle_message (initialClientState "w") (.notifyDict sampleNotify1))
          (.notifyDict sampleNotify2)) 1 = some sampleNotify2 ∧
      (sampleNotify1 ≠ sampleNotify2 →
        get_job_iter
            (handle_message (handle_message (initialClientState "w") (.notifyDict sampleNotify1))
              (.notifyDict sampleNotify2)) 1 ≠ some sampleNotify1)) :=
  ⟨⟨by decide, by decide⟩,
    latest_job_wins (initialClientState "w") sampleNotify1 sampleNotify2 1
      (by decide) (by decide)⟩

/-- C9: an array-shaped notify with at least 2 but fewer than 7 params
parses, filling defaults for the missing tail fields — in particular
`clean_jobs` defaults to true — and handling it discards every
queued-but-unconsumed job, leaving exactly the new job queued. -/
theorem notify_array_defaults (st : ClientState) (params : List SVal)
    (h2 : 2 ≤ params.length) (h7 : params.length < 7) :
    ∃ job, parseNotifyArray params = some job ∧
      job.clean_jobs = SVal.b true ∧
      (params.length ≤ 2 → job.seed_hash = SVal.s "") ∧
      (params.length ≤ 3 → job.next_seed_hash = SVal.s "") ∧
      (params.length ≤ 4 → job.height = SVal.n 0) ∧
      (params.length ≤ 5 → job.difficulty = SVal.n 1) ∧
      handle_message st (.notifyArr params) =
        { st with current_job := some job, job_queue := [job] } := by
  have hne : params.isEmpty = false := by
    cases params with
    | nil => simp at h2
    | cons p rest => simp
  have hdef : ∀ (i : Nat) (d : SVal), params.length ≤ i → (params.getD i d) = d := by
    intro i d h
    rw [List.getD_eq_getElem?_getD, List.getElem?_eq_none h]
    rfl
  have hparse : parseNotifyArray params =
      some { job_id := params.getD 0 (.s ""), blob := params.getD 1 (.s "")
             seed_hash := params.getD 2 (.s ""), next_seed_hash := params.getD 3 (.s "")
             height := params.getD 4 (.n 0), difficulty := params.getD 5 (.n 1)
             clean_jobs := params.getD 6 (.b true) } := by
    rw [parseNotifyArray]
    rw [if_pos h2]
  refine ⟨{ job_id := params.getD 0 (.s ""), blob := params.getD 1 (.s "")
            seed_hash := params.getD 2 (.s ""), next_seed_hash := params.getD 3 (.s "")
            height := params.getD 4 (.n 0), difficulty := params.getD 5 (.n 1)
            clean_jobs := params.getD 6 (.b true) }, hparse, ?_, ?_, ?_, ?_, ?_, ?_⟩
  · exact hdef 6 _ (by omega)
  · intro hlen
    exact hdef 2 _ (by omega)
  · intro hlen
    exact hdef 3 _ (by omega)
  · intro hlen
    exact hdef 4 _ (by omega)
  · intro hlen
    exact hdef 5 _ (by omega)
  · have hclean : truthy (params.getD 6 (.b true)) = true := by
      rw [hdef 6 _ (by omega)]
      rfl
    simp only [handle_message, hne, Bool.false_eq_true, if_false, hparse, installNotify,
      hclean, if_true, List.nil_append]

/-- Witness for `notify_array_defaults`: a two-element array payload on
a fresh client. -/
theorem notify_array_defaults_witness :
    (2 ≤ ([SVal.s "j1", SVal.s "00ff"] : List SVal).length ∧
      ([SVal.s "j1", SVal.s "00ff"] : List SVal).length < 7) ∧
    (∃ job, parseNotifyArray [SVal.s "j1", SVal.s "00ff"] = some job ∧
      job.clean_jobs = SVal.b true ∧
      (([SVal.s "j1", SVal.s "00ff"] : List SVal).length ≤ 2 → job.seed_hash = SVal.s "") ∧
      (([SVal.s "j1", SVal.s "00ff"] : List SVal).length ≤ 3 →
        job.next_seed_hash = SVal.s "") ∧
      (([SVal.s "j1", SVal.s "00ff"] : List SVal).length ≤ 4 → job.height = SVal.n 0) ∧
      (([SVal.s "j1", SVal.s "00ff"] : List SVal).length ≤ 5 → job.difficulty = SVal.n 1) ∧
      handle_message (initialClientState "w") (.notifyArr [SVal.s "j1", SVal.s "00ff"]) =
        { initialClientState "w" with current_job := some job, job_queue := [job] }) :=
  ⟨⟨by decide, by decide⟩,
    notify_array_defaults (initialClientState "w") [SVal.s "j1", SVal.s "00ff"]
      (by decide) (by decide)⟩

/-! ### Listener loop (`_listen_loop`, source lines 396–440) -/

/-- Outcome of one socket read in `_listen_loop`: a zero-length read
(`closed`), a chunk of data whose complete JSON lines parse to `msgs`
(malformed lines are dropped by the `json.JSONDecodeError` handler), a
`socket.timeout`, an `OSError`, or any other exception. -/
inductive RecvEvent
  | closed
  | data (msgs : List StratumMsg)
  | timeout
  | sockError (e : String)
  | otherError (e : String)
deriving DecidableEq

/-- One iteration of `_listen_loop` (source lines 400–438): returns the
updated client state and whether the loop keeps running.  A zero-length
read just breaks out of the loop; an `OSError` while still connected
records `socket error: …` and clears `connected`; any other exception
records `listener error: …` and clears `connected`. -/
def listen_step (st : ClientState) (ev : RecvEvent) : ClientState × Bool :=
  match ev with
  | .closed => (st, false)
  | .data msgs => (msgs.foldl handle_message st, true)
  | .timeout => (st, true)
  | .sockError e =>
    if st.connected = false then (st, false)
    else
      ({ st with
          last_disconnect_reason := some ("socket error: " ++ e), connected := false },
        false)
  | .otherError e =>
    ({ st with
        last_disconnect_reason := some ("listener error: " ++ e), connected := false },
      false)

/-- A connected client with no recorded disconnect reason, used to
exhibit the zero-length-read behaviour. -/
def connectedClient : ClientState :=
  { initialClientState "w" with connected := true }

/-- C7 counterexample: on a zero-length read the listener exits the
loop but does NOT set `connected = false` and does NOT record a
disconnect reason — contradicting the claim that a zero-length read
does both. -/
theorem listen_zero_read_counterexample :
    (listen_step connectedClient .closed).2 = false ∧
    (listen_step connectedClient .closed).1.connected = true ∧
    (listen_step connectedClient .closed).1.last_disconnect_reason = none := by
  decide

/-- C7 (amended): an `OSError` while still connected, or any other
listener exception, sets `connected = false`, records a disconnect
reason, and exits the loop; a zero-length read exits the loop leaving
`connected` and the reason untouched. -/
theorem listen_disconnect_spec (st : ClientState) (e : String)
    (h : st.connected = true) :
    (listen_step st (.sockError e)).1.connected = false ∧
    (listen_step st (.sockError e)).1.last_disconnect_reason =
      some ("socket error: " ++ e) ∧
    (listen_step st (.sockError e)).2 = false ∧
    (listen_step st (.otherError e)).1.connected = false ∧
    (listen_step st (.otherError e)).1.last_disconnect_reason =
      some ("listener error: " ++ e) ∧
    (listen_step st (.otherError e)).2 = false ∧
    listen_step st .closed = (st, false) := by
  simp [listen_step, h]

/-- Witness for `listen_disconnect_spec` on the connected sample
client. -/
theorem listen_disconnect_spec_witness :
    connectedClient.connected = true ∧
    ((listen_step connectedClient (.sockError "reset")).1.connected = false ∧
    (listen_step connectedClient (.sockError "reset")).1.last_disconnect_reason =
      some ("socket error: " ++ "reset") ∧
    (listen_step connectedClient (.sockError "reset")).2 = false ∧
    (listen_step connectedClient (.otherError "reset")).1.connected = false ∧
    (listen_step connectedClient (.otherError "reset")).1.last_disconnect_reason =
      some ("listener error: " ++ "reset") ∧
    (listen_step connectedClient (.otherError "reset")).2 = false ∧
    listen_step connectedClient .closed = (connectedClient, false)) :=
  ⟨by decide, listen_disconnect_spec connectedClient "reset" (by decide)⟩

/-! ### Share formatting and submission (`submit_share`, source lines 330–359) -/

/-- Lowercase hex digit character for a value < 16, as CPython's
`hex()` and `bytes.hex()` produce. -/
def hexDigitChar (d : Nat) : Char :=
  if d < 10 then Char.ofNat (48 + d) else Char.ofNat (87 + d)

/-- Digit accumulator for `hex(n)[2:]`: most-significant digit first;
the fuel argument bounds the recursion depth. -/
def hexCore : Nat → Nat → List Char → List Char
  | 0, _, acc => acc
  | fuel + 1, n, acc =>
    if n = 0 then acc else hexCore fuel (n / 16) (hexDigitChar (n % 16) :: acc)

/-- `hex(n)[2:]` for a nonnegative int: lowercase hex digits without
leading zeros, `"0"` for zero. -/
def pyHex (n : Nat) : String :=
  if n = 0 then "0" else String.mk (hexCore (n + 1) n [])

/-- `str.zfill(w)` for a digits-only string: left-pad with `'0'` to
width `w` (never truncates). -/
def zfill (s : String) (w : Nat) : String :=
  String.mk (List.replicate (w - s.length) '0' ++ s.data)

/-- `hex(nonce)[2:].zfill(8)` (source line 335). -/
def nonceHex (nonce : Nat) : String :=
  zfill (pyHex nonce) 8

/-- `result_hash.hex()` (source line 336): two lowercase hex digits per
byte. -/
def digestHex (bs : List Nat) : String :=
  String.mk
    (bs.foldr (fun b acc => hexDigitChar (b / 16) :: hexDigitChar (b % 16) :: acc) [])

/-- `int(s, 16)` on valid hex digit characters. -/
def parseHexDigits (l : List Char) : Nat :=
  l.foldl (fun acc c => 16 * acc + (hexDigitVal c).getD 0) 0

/-- Lowercase hex digit character class. -/
def isLowerHexDigit (c : Char) : Bool :=
  decide (('0' ≤ c ∧ c ≤ '9') ∨ ('a' ≤ c ∧ c ≤ 'f'))

theorem hexCore_append : ∀ (fuel n : Nat) (acc : List Char),
    hexCore fuel n acc = hexCore fuel n [] ++ acc := by
  intro fuel
  induction fuel with
  | zero => intro n acc; simp [hexCore]
  | succ fuel ih =>
    intro n acc
    by_cases hn : n = 0
    · simp [hexCore, hn]
    · simp only [hexCore, if_neg hn]
      rw [ih (n / 16) (hexDigitChar (n % 16) :: acc), ih (n / 16) [hexDigitChar (n % 16)]]
      simp

theorem hexDigitVal_hexDigitChar {d : Nat} (h : d < 16) :
    (hexDigitVal (hexDigitChar d)).getD 0 = d := by
  have hfin : ∀ x : Fin 16, (hexDigitVal (hexDigitChar x.val)).getD 0 = x.val := by decide
  exact hfin ⟨d, h⟩

theorem isLowerHexDigit_hexDigitChar {d : Nat} (h : d < 16) :
    isLowerHexDigit (hexDigitChar d) = true := by
  have hfin : ∀ x : Fin 16, isLowerHexDigit (hexDigitChar x.val) = true := by decide
  exact hfin ⟨d, h⟩

theorem hexCore_spec : ∀ (fuel k n : Nat), n < 16 ^ k → k ≤ fuel →
    parseHexDigits (hexCore fuel n []) = n ∧
    (hexCore fuel n []).length ≤ k ∧
    (∀ c ∈ hexCore fuel n [], isLowerHexDigit c = true) := by
  intro fuel
  induction fuel with
  | zero =>
    intro k n hn hk
    have hk0 : k = 0 := Nat.le_zero.mp hk
    subst hk0
    have hn0 : n = 0 := by simpa using hn
    subst hn0
    simp [hexCore, parseHexDigits]
  | succ fuel ih =>
    intro k n hn hk
    by_cases h0 : n = 0
    · subst h0
      simp [hexCore, parseHexDigits]
    · cases k with
      | zero =>
        simp at hn
        omega
      | succ k =>
        have hdiv : n / 16 < 16 ^ k := by
          rw [Nat.div_lt_iff_lt_mul (by norm_num)]
          calc n < 16 ^ (k + 1) := hn
            _ = 16 ^ k * 16 := by rw [pow_succ]
        obtain ⟨ih1, ih2, ih3⟩ := ih k (n / 16) hdiv (by omega)
        have hstep : hexCore (fuel + 1) n [] =
            hexCore fuel (n / 16) [] ++ [hexDigitChar (n % 16)] := by
          simp only [hexCore, if_neg h0]
          exact hexCore_append fuel (n / 16) [hexDigitChar (n % 16)]
        refine ⟨?_, ?_, ?_⟩
        · unfold parseHexDigits at ih1 ⊢
          rw [hstep, List.foldl_append]
          simp only [List.foldl_cons, List.foldl_nil]
          rw [ih1, hexDigitVal_hexDigitChar (Nat.mod_lt n (by norm_num))]
          omega
        · rw [hstep]
          simp only [List.length_append, List.length_cons, List.length_nil]
          omega
        · rw [hstep]
          intro c hc
          rcases List.mem_append.mp hc with h | h
          · exact ih3 c h
          · have : c = hexDigitChar (n % 16) := by simpa using h
            rw [this]
            exact isLowerHexDigit_hexDigitChar (Nat.mod_lt n (by norm_num))

theorem pyHex_spec (n k : Nat) (hn : n < 16 ^ k) (hk : 1 ≤ k) :
    parseHexDigits (pyHex n).data = n ∧ (pyHex n).data.length ≤ k ∧
    1 ≤ (pyHex n).data.length ∧
    ∀ c ∈ (pyHex n).data, isLowerHexDigit c = true := by
  by_cases h0 : n = 0
  · subst h0
    refine ⟨by decide, ?_, by decide, by decide⟩
    have : (pyHex 0).data.length = 1 := by decide
    omega
  · have hmin : n < 16 ^ min k (n + 1) := by
      rcases Nat.le_total k (n + 1) with h | h
      · rwa [Nat.min_eq_left h]
      · rw [Nat.min_eq_right h]
        calc n < 16 ^ n := Nat.lt_pow_self (by norm_num) n
          _ ≤ 16 ^ (n + 1) := Nat.pow_le_pow_right (by norm_num) (by omega)
    obtain ⟨hp, hl, hdig⟩ :=
      hexCore_spec (n + 1) (min k (n + 1)) n hmin (Nat.min_le_right k (n + 1))
    have hdata : (pyHex n).data = hexCore (n + 1) n [] := by
      simp [pyHex, h0]
    refine ⟨by rw [hdata]; exact hp, ?_, ?_, by rw [hdata]; exact hdig⟩
    · rw [hdata]
      exact le_trans hl (Nat.min_le_left k (n + 1))
    · rw [hdata]
      rcases hne : hexCore (n + 1) n [] with _ | ⟨c, rest⟩
      · rw [hne] at hp
        simp [parseHexDigits] at hp
        omega
      · simp

theorem parseHexDigits_replicate_zero :
    ∀ (k : Nat) (xs : List Char),
      parseHexDigits (List.replicate k '0' ++ xs) = parseHexDigits xs := by
  intro k
  induction k with
  | zero => intro xs; simp
  | succ k ih =>
    intro xs
    have : List.replicate (k + 1) '0' = '0' :: List.replicate k '0' := rfl
    rw [this, List.cons_append]
    unfold parseHexDigits at ih ⊢
    simp only [List.foldl_cons]
    have hz : (16 * 0 + (hexDigitVal '0').getD 0) = 0 := by decide
    rw [hz]
    exact ih xs

theorem nonceHex_spec (nonce : Nat) (h : nonce < 2 ^ 32) :
    (nonceHex nonce).length = 8 ∧ parseHexDigits (nonceHex nonce).data = nonce ∧
    ∀ c ∈ (nonceHex nonce).data, isLowerHexDigit c = true := by
  have h16 : nonce < 16 ^ 8 := by
    have : (16 : Nat) ^ 8 = 2 ^ 32 := by norm_num
    omega
  obtain ⟨hp, hl, hge, hdig⟩ := pyHex_spec nonce 8 h16 (by norm_num)
  have hdata : (nonceHex nonce).data =
      List.replicate (8 - (pyHex nonce).length) '0' ++ (pyHex nonce).data := rfl
  have hslen : (pyHex nonce).length = (pyHex nonce).data.length := rfl
  refine ⟨?_, ?_, ?_⟩
  · show (nonceHex nonce).data.length = 8
    rw [hdata]
    simp only [List.length_append, List.length_replicate]
    omega
  · rw [hdata, parseHexDigits_replicate_zero]
    exact hp
  · rw [hdata]
    intro c hc
    rcases List.mem_append.mp hc with hmem | hmem
    · have : c = '0' := List.eq_of_mem_replicate hmem
      rw [this]
      decide
    · exact hdig c hmem

theorem digestChars_length : ∀ bs : List Nat,
    (bs.foldr (fun b acc => hexDigitChar (b / 16) :: hexDigitChar (b % 16) :: acc)
      []).length = 2 * bs.length := by
  intro bs
  induction bs with
  | nil => rfl
  | cons b rest ih =>
    simp only [List.foldr_cons, List.length_cons, ih]
    omega

theorem digestHex_length (bs : List Nat) : (digestHex bs).length = 2 * bs.length := by
  show (digestHex bs).data.length = 2 * bs.length
  have hdata : (digestHex bs).data =
      bs.foldr (fun b acc => hexDigitChar (b / 16) :: hexDigitChar (b % 16) :: acc) [] :=
    rfl
  rw [hdata]
  exact digestChars_length bs

/-- `SubmitRequest`: the JSON-RPC `submit` request body built by
`submit_share` (source lines 343–353). -/
structure SubmitRequest where
  id : Nat
  job_id : String
  nonce : String
  result : String
  worker : String
deriving DecidableEq

/-- Outcome of the `_send_request` call inside `submit_share`: success,
an `OSError` from `sendall` (which also records the disconnect, source
lines 391–394), or `ConnectionError` because no socket exists (source
lines 384–385). -/
inductive SendOutcome
  | ok
  | osError (e : String)
  | noSocket
deriving DecidableEq

/-- `submit_share` (source lines 330–359): format nonce and digest,
then under `_id_lock` take a fresh request id, register it as a pending
submit and bump `shares_sent`; then attempt the send.  Any exception is
caught and `False` returned — the counter and the pending id are not
rolled back.  Returns `(ok, state, request)`. -/
def submit_share (st : ClientState) (job_id : String) (nonce : Nat)
    (result_hash : List Nat) (send : SendOutcome) :
    Bool × ClientState × SubmitRequest :=
  let nonce_hex := nonceHex nonce
  let result_hex := digestHex result_hash
  let req_id := st.request_id
  let st1 := { st with
    request_id := st.request_id + 1,
    pending_submit_ids := st.pending_submit_ids ++ [req_id],
    shares_sent := st.shares_sent + 1 }
  let request : SubmitRequest :=
    { id := req_id, job_id := job_id, nonce := nonce_hex, result := result_hex,
      worker := st.worker_id }
  match send with
  | .ok => (true, st1, request)
  | .osError e =>
    (false,
      { st1 with
        connected := false, last_disconnect_reason := some ("send failed: " ++ e) },
      request)
  | .noSocket => (false, st1, request)

/-- C8 counterexample: the claim quantifies over every nonce, but
`zfill` never truncates — nonce `2^32` serializes to 9 characters, not
exactly 8. -/
theorem nonce_hex_width_counterexample :
    ¬((nonceHex 4294967296).length = 8) ∧ (nonceHex 4294967296).length = 9 := by
  decide

/-- C8 (amended): for every nonce < 2^32, `submit_share` serializes the
nonce as exactly 8 lowercase hex characters (for larger nonces the
string is longer — `zfill` pads but never truncates) and the 32-byte
digest as its 64-character hex encoding; nonce 255 gives `"000000ff"`,
the all-zero digest gives 64 `'0'`s, and parsing the hex characters
back yields the original nonce. -/
theorem submit_share_formatting (st : ClientState) (job_id : String) (send : SendOutcome)
    (nonce : Nat) (digest : List Nat) (hn : nonce < 2 ^ 32) (hd : digest.length = 32) :
    (submit_share st job_id nonce digest send).2.2.nonce = nonceHex nonce ∧
    (submit_share st job_id nonce digest send).2.2.result = digestHex digest ∧
    (nonceHex nonce).length = 8 ∧
    (∀ c ∈ (nonceHex nonce).data, isLowerHexDigit c = true) ∧
    parseHexDigits (nonceHex nonce).data = nonce ∧
    (digestHex digest).length = 64 ∧
    nonceHex 255 = "000000ff" ∧
    digestHex (List.replicate 32 0) = String.mk (List.replicate 64 '0') := by
  obtain ⟨h8, hparse, hdig⟩ := nonceHex_spec nonce hn
  refine ⟨?_, ?_, h8, hdig, hparse, ?_, by decide, by decide⟩
  · cases send <;> rfl
  · cases send <;> rfl
  · rw [digestHex_length, hd]

/-- Witness for `submit_share_formatting` at nonce 255 with the
all-zero digest. -/
theorem submit_share_formatting_witness :
    ((255 : Nat) < 2 ^ 32 ∧ (List.replicate 32 0 : List Nat).length = 32) ∧
    ((submit_share (initialClientState "w") "j1" 255 (List.replicate 32 0)
        SendOutcome.ok).2.2.nonce = nonceHex 255 ∧
    (submit_share (initialClientState "w") "j1" 255 (List.replicate 32 0)
        SendOutcome.ok).2.2.result = digestHex (List.replicate 32 0) ∧
    (nonceHex 255).length = 8 ∧
    (∀ c ∈ (nonceHex 255).data, isLowerHexDigit c = true) ∧
    parseHexDigits (nonceHex 255).data = 255 ∧
    (digestHex (List.replicate 32 0)).length = 64 ∧
    nonceHex 255 = "000000ff" ∧
    digestHex (List.replicate 32 0) = String.mk (List.replicate 64 '0')) :=
  ⟨⟨by decide, by decide⟩,
    submit_share_formatting (initialClientState "w") "j1" SendOutcome.ok 255
      (List.replicate 32 0) (by decide) (by decide)⟩

/-- C10: `submit_share` increments `shares_sent` and registers the
fresh request id as pending before attempting the send; when the send
fails it returns false, but the counter stays incremented and the id
stays registered — no rollback. -/
theorem submit_share_no_rollback (st : ClientState) (job_id : String) (nonce : Nat)
    (result_hash : List Nat) (send : SendOutcome) (h : send ≠ SendOutcome.ok) :
    (submit_share st job_id nonce result_hash send).1 = false ∧
    (submit_share st job_id nonce result_hash send).2.1.shares_sent =
      st.shares_sent + 1 ∧
    st.request_id ∈ (submit_share st job_id nonce result_hash send).2.1.pending_submit_ids ∧
    (submit_share st job_id nonce result_hash send).2.1.request_id =
      st.request_id + 1 := by
  cases send <;> simp_all [submit_share]

/-- Witness for `submit_share_no_rollback` with a missing socket on a
fresh client. -/
theorem submit_share_no_rollback_witness :
    SendOutcome.noSocket ≠ SendOutcome.ok ∧
    ((submit_share (initialClientState "w") "j1" 255 (List.replicate 32 0)
        SendOutcome.noSocket).1 = false ∧
    (submit_share (initialClientState "w") "j1" 255 (List.replicate 32 0)
        SendOutcome.noSocket).2.1.shares_sent = (initialClientState "w").shares_sent + 1 ∧
    (initialClientState "w").request_id ∈
      (submit_share (initialClientState "w") "j1" 255 (List.replicate 32 0)
        SendOutcome.noSocket).2.1.pending_submit_ids ∧
    (submit_share (initialClientState "w") "j1" 255 (List.replicate 32 0)
        SendOutcome.noSocket).2.1.request_id = (initialClientState "w").request_id + 1) :=
  ⟨by decide,
    submit_share_no_rollback (initialClientState "w") "j1" 255 (List.replicate 32 0)
      SendOutcome.noSocket (by decide)⟩

end ZionMiner
